import Mathlib

/-!
Verification of the table layout and rendering engine of the `tabled`
repository.  Definitions are shallow embeddings of the Rust source:
`GridBorder` and the type-state `Border` come from
`tabled/src/settings/style/border.rs`, the `Span` cell option from
`src/span.rs`, and the grid-configuration mutators and the renderer are
modelled from the specification where the engine code (papergrid) is not
part of the sample.
-/

namespace Tabled

/-- The grid border of a cell: up to 8 optional characters, as in
papergrid's `Border<char>` used throughout `border.rs`. -/
structure GridBorder where
  top : Option Char
  bottom : Option Char
  left : Option Char
  right : Option Char
  left_top_corner : Option Char
  right_top_corner : Option Char
  left_bottom_corner : Option Char
  right_bottom_corner : Option Char
deriving DecidableEq, Repr

/-- `GridBorder::empty()`: no side set. -/
def GridBorder.empty : GridBorder :=
  ⟨none, none, none, none, none, none, none, none⟩

/-- `GridBorder::full(...)`: all 8 sides set. -/
def GridBorder.full (t b l r tl tr bl br : Char) : GridBorder :=
  ⟨some t, some b, some l, some r, some tl, some tr, some bl, some br⟩

/-- The type-state border of `border.rs`: the four phantom markers
`T B L R` (here booleans, `true` playing the role of `On`) track which
sides have been set. -/
structure Border (T B L R : Bool) where
  inner : GridBorder
deriving DecidableEq, Repr

/-- `Border::new()`: an empty border, no marker set. -/
def Border.new : Border false false false false :=
  ⟨GridBorder.empty⟩

/-- `Border::full(...)`: all sides set, all markers `On`. -/
def Border.full (t b l r tl tr bl br : Char) : Border true true true true :=
  ⟨GridBorder.full t b l r tl tr bl br⟩

/-- `Border::filled(c)`: like `full` with the same character everywhere. -/
def Border.filled (c : Char) : Border true true true true :=
  Border.full c c c c c c c c

/-- `Border::set_top`. -/
def Border.set_top {T B L R : Bool} (x : Border T B L R) (c : Char) :
    Border true B L R :=
  ⟨{ x.inner with top := some c }⟩

/-- `Border::set_bottom`. -/
def Border.set_bottom {T B L R : Bool} (x : Border T B L R) (c : Char) :
    Border T true L R :=
  ⟨{ x.inner with bottom := some c }⟩

/-- `Border::set_left`. -/
def Border.set_left {T B L R : Bool} (x : Border T B L R) (c : Char) :
    Border T B true R :=
  ⟨{ x.inner with left := some c }⟩

/-- `Border::set_right`. -/
def Border.set_right {T B L R : Bool} (x : Border T B L R) (c : Char) :
    Border T B L true :=
  ⟨{ x.inner with right := some c }⟩

/-- `Border::set_corner_top_left`, available when top and left are `On`. -/
def Border.set_corner_top_left {B R : Bool} (x : Border true B true R)
    (c : Char) : Border true B true R :=
  ⟨{ x.inner with left_top_corner := some c }⟩

/-- `Border::set_corner_top_right`, available when top and right are `On`. -/
def Border.set_corner_top_right {B L : Bool} (x : Border true B L true)
    (c : Char) : Border true B L true :=
  ⟨{ x.inner with right_top_corner := some c }⟩

/-- `Border::set_corner_bottom_left`, available when bottom and left are `On`. -/
def Border.set_corner_bottom_left {T R : Bool} (x : Border T true true R)
    (c : Char) : Border T true true R :=
  ⟨{ x.inner with left_bottom_corner := some c }⟩

/-- `Border::set_corner_bottom_right`, available when bottom and right are `On`. -/
def Border.set_corner_bottom_right {T L : Bool} (x : Border T true L true)
    (c : Char) : Border T true L true :=
  ⟨{ x.inner with right_bottom_corner := some c }⟩

/-- `get_char` from `border.rs`: returns the character, the `None` arm is
`unreachable!()`; a `none` result models hitting that unreachable arm. -/
def get_char (c : Option Char) : Option Char :=
  match c with
  | some ch => some ch
  | none => none

/-- `Border::get_top`, available when the top marker is `On`. -/
def Border.get_top {B L R : Bool} (x : Border true B L R) : Option Char :=
  get_char x.inner.top

/-- `Border::get_bottom`, available when the bottom marker is `On`. -/
def Border.get_bottom {T L R : Bool} (x : Border T true L R) : Option Char :=
  get_char x.inner.bottom

/-- `Border::get_left`, available when the left marker is `On`. -/
def Border.get_left {T B R : Bool} (x : Border T B true R) : Option Char :=
  get_char x.inner.left

/-- `Border::get_right`, available when the right marker is `On`. -/
def Border.get_right {T B L : Bool} (x : Border T B L true) : Option Char :=
  get_char x.inner.right

/-- `Border::get_corner_top_left`, available when top and left are `On`. -/
def Border.get_corner_top_left {B R : Bool} (x : Border true B true R) :
    Option Char :=
  get_char x.inner.left_top_corner

/-- `Border::get_corner_top_right`. -/
def Border.get_corner_top_right {B L : Bool} (x : Border true B L true) :
    Option Char :=
  get_char x.inner.right_top_corner

/-- `Border::get_corner_bottom_left`. -/
def Border.get_corner_bottom_left {T R : Bool} (x : Border T true true R) :
    Option Char :=
  get_char x.inner.left_bottom_corner

/-- `Border::get_corner_bottom_right`. -/
def Border.get_corner_bottom_right {T L : Bool} (x : Border T true L true) :
    Option Char :=
  get_char x.inner.right_bottom_corner

/-- The values of `Border` reachable through the public constructors and
setters of `border.rs`. -/
inductive Reach : {T B L R : Bool} → Border T B L R → Prop
  | new : Reach Border.new
  | full (t b l r tl tr bl br : Char) : Reach (Border.full t b l r tl tr bl br)
  | filled (c : Char) : Reach (Border.filled c)
  | set_top {T B L R : Bool} {x : Border T B L R} (c : Char) :
      Reach x → Reach (x.set_top c)
  | set_bottom {T B L R : Bool} {x : Border T B L R} (c : Char) :
      Reach x → Reach (x.set_bottom c)
  | set_left {T B L R : Bool} {x : Border T B L R} (c : Char) :
      Reach x → Reach (x.set_left c)
  | set_right {T B L R : Bool} {x : Border T B L R} (c : Char) :
      Reach x → Reach (x.set_right c)
  | set_corner_top_left {B R : Bool} {x : Border true B true R} (c : Char) :
      Reach x → Reach (x.set_corner_top_left c)
  | set_corner_top_right {B L : Bool} {x : Border true B L true} (c : Char) :
      Reach x → Reach (x.set_corner_top_right c)
  | set_corner_bottom_left {T R : Bool} {x : Border T true true R} (c : Char) :
      Reach x → Reach (x.set_corner_bottom_left c)
  | set_corner_bottom_right {T L : Bool} {x : Border T true L true} (c : Char) :
      Reach x → Reach (x.set_corner_bottom_right c)

/-- The side invariant of the type-state: a marker being `On` means the
corresponding side field is `Some`. -/
def sideInv {T B L R : Bool} (x : Border T B L R) : Prop :=
  (T = true → x.inner.top.isSome) ∧
  (B = true → x.inner.bottom.isSome) ∧
  (L = true → x.inner.left.isSome) ∧
  (R = true → x.inner.right.isSome)

/-- A cell position `(row, col)`, zero based, row major. -/
abbrev Pos := Nat × Nat

/-- A padding setting: `(top, bottom, left, right)` character counts. -/
structure Padding where
  ptop : Nat
  pbottom : Nat
  pleft : Nat
  pright : Nat
deriving DecidableEq, Repr

/-- A horizontal alignment setting. -/
inductive AlignH
  | left
  | center
  | right
deriving DecidableEq, Repr

/-- Modelled from the spec: the grid configuration, sparse mappings keyed
by position for border overrides, spans, padding and alignment (papergrid's
`GridConfig`, not part of the sample). -/
structure Cfg where
  borders : Pos → Option GridBorder
  spans : Pos → Option Nat
  paddings : Pos → Option Padding
  alignments : Pos → Option AlignH

/-- The empty configuration: no override anywhere. -/
def Cfg.empty : Cfg :=
  ⟨fun _ => none, fun _ => none, fun _ => none, fun _ => none⟩

/-- Modelled from the spec: `GridConfig::set_border` (papergrid, not part
of the sample): overwrite the border override on a position; the overwrite
replaces the stored value fully, it does not merge fields. -/
def Cfg.set_border (c : Cfg) (p : Pos) (b : GridBorder) : Cfg :=
  { c with borders := fun q => if q = p then some b else c.borders q }

/-- Modelled from the spec: `GridConfig::set_span` (papergrid, not part of
the sample): registers `size` starting at `pos`; when `size <= 1` the span
is removed; a size exceeding the remaining columns is clamped to the
remaining column count. -/
def Cfg.set_span (c : Cfg) (p : Pos) (size countCols : Nat) : Cfg :=
  { c with spans := fun q =>
      if q = p then
        if size ≤ 1 then none else some (min size (countCols - p.2))
      else c.spans q }

/-- Modelled from the spec: per-position padding overwrite. -/
def Cfg.set_padding (c : Cfg) (p : Pos) (pd : Padding) : Cfg :=
  { c with paddings := fun q => if q = p then some pd else c.paddings q }

/-- Modelled from the spec: per-position alignment overwrite. -/
def Cfg.set_alignment (c : Cfg) (p : Pos) (al : AlignH) : Cfg :=
  { c with alignments := fun q => if q = p then some al else c.alignments q }

/-- The papergrid `Entity` selector as used by `span.rs`. -/
inductive Entity
  | Global
  | Row (r : Nat)
  | Column (c : Nat)
  | Cell (r c : Nat)

/-- Modelled from the spec: `Entity::iter` resolves the selector to the
concrete in-bounds positions; out-of-range coordinates are silently
excluded. -/
def Entity.iter : Entity → Nat → Nat → List Pos
  | .Cell r c, rows, cols =>
      if r < rows ∧ c < cols then [(r, c)] else []
  | .Row r, rows, cols =>
      if r < rows then (List.range cols).map (fun j => (r, j)) else []
  | .Column c, rows, cols =>
      if c < cols then (List.range rows).map (fun i => (i, c)) else []
  | .Global, rows, cols =>
      (List.range rows).flatMap (fun i => (List.range cols).map (fun j => (i, j)))

/-- The `Span` cell option of `src/span.rs`: a horizontal/column span of a
given size. -/
structure Span where
  size : Nat

/-- `Span::column(size)`. -/
def Span.column (size : Nat) : Span :=
  ⟨size⟩

/-- `CellOption for Span::change_cell` from `src/span.rs`: iterates the
entity positions for the table shape and registers the span on each. -/
def Span.change_cell (sp : Span) (rows cols : Nat) (e : Entity) (c : Cfg) :
    Cfg :=
  (e.iter rows cols).foldl (fun acc p => acc.set_span p sp.size cols) c

/-- `CellOption for GridBorder<char>::change` from `border.rs` lines
248-259: iterates the entity positions and sets the border on each. -/
def GridBorder.change (b : GridBorder) (rows cols : Nat) (e : Entity)
    (c : Cfg) : Cfg :=
  (e.iter rows cols).foldl (fun acc p => acc.set_border p b) c

/-- Pointwise overwrite of a sparse mapping on a set of positions. -/
def overwrite {α : Type} (f : Pos → Option α) (ps : List Pos)
    (g : Pos → Option α) : Pos → Option α :=
  fun q => if q ∈ ps then g q else f q

/-- The span value stored by `set_span` at a position, after the
`size <= 1` removal rule and the remaining-columns clamp. -/
def spanVal (size countCols : Nat) (q : Pos) : Option Nat :=
  if size ≤ 1 then none else some (min size (countCols - q.2))

/-- A configuration mutator: border setter, span setter, padding setter or
alignment setter, each applied over a resolved position set. -/
inductive Mut
  | border (b : GridBorder)
  | span (size countCols : Nat)
  | pad (pd : Padding)
  | align (al : AlignH)

/-- Apply a mutator to every position of a resolved position set, mirroring
the `CellOption` loops of `span.rs` and `border.rs`. -/
def Mut.apply : Mut → List Pos → Cfg → Cfg
  | .border b, ps, c => ps.foldl (fun a p => a.set_border p b) c
  | .span size countCols, ps, c =>
      ps.foldl (fun a p => a.set_span p size countCols) c
  | .pad pd, ps, c => ps.foldl (fun a p => a.set_padding p pd) c
  | .align al, ps, c => ps.foldl (fun a p => a.set_alignment p al) c

/-- Modelled from the spec: center a cell content inside a column width by
padding with spaces, the left side getting the floor half (the renderer's
centered-by-padding rule). -/
def padCellL (w : Nat) (s : List Char) : List Char :=
  List.replicate ((w - s.length) / 2) ' ' ++ s ++
    List.replicate (w - s.length - (w - s.length) / 2) ' '

/-- Join character lists with a separator character between them. -/
def joinSepL (sep : Char) : List (List Char) → List Char
  | [] => []
  | [l] => l
  | l :: m :: rest => l ++ sep :: joinSepL sep (m :: rest)

/-- The cell content at a position, as characters; missing cells are empty. -/
def cellAt (tbl : List (List String)) (i j : Nat) : List Char :=
  ((tbl.getD i []).getD j "").data

/-- Modelled from the spec: the natural width of a column is the maximum
over all rows of the cell content width plus the horizontal padding (one
space each side); row-0 cells covered by a row-0 span are skipped, they
contribute through the span distribution step instead. -/
def colWidthNat (tbl : List (List String)) (span0 j : Nat) : Nat :=
  ((List.range tbl.length).map (fun i =>
    if i = 0 ∧ 1 < span0 ∧ j < span0 then 0
    else (cellAt tbl i j).length + 2)).foldl max 0

/-- The natural widths of all columns. -/
def baseWidths (tbl : List (List String)) (cols span0 : Nat) : List Nat :=
  (List.range cols).map (colWidthNat tbl span0)

/-- The width of the merged region of a row-0 span of the given size:
the member column widths plus the swallowed interior separators. -/
def regionWidth (ws : List Nat) (span0 : Nat) : Nat :=
  (ws.take span0).sum + (span0 - 1)

/-- Modelled from the spec: the span distribution step; when the merged
content needs more room than the member columns provide, the remainder is
given to the rightmost member column. -/
def fixWidths (ws : List Nat) (span0 need : Nat) : List Nat :=
  if span0 ≤ 1 then ws
  else if need ≤ regionWidth ws span0 then ws
  else ws.set (span0 - 1)
    (ws.getD (span0 - 1) 0 + (need - regionWidth ws span0))

/-- The resolved dimension plan for the columns. -/
def widths (tbl : List (List String)) (cols span0 : Nat) : List Nat :=
  fixWidths (baseWidths tbl cols span0) span0 ((cellAt tbl 0 0).length + 2)

/-- The total display width of the table: column widths plus the interior
vertical separators. -/
def totalWidth (ws : List Nat) : Nat :=
  ws.sum + (ws.length - 1)

/-- Pad each cell of a row to its column width; a missing cell is empty. -/
def cellsL (ws : List Nat) (row : List (List Char)) : List (List Char) :=
  match ws, row with
  | [], _ => []
  | w :: ws, [] => padCellL w [] :: cellsL ws []
  | w :: ws, s :: row => padCellL w s :: cellsL ws row

/-- A content line of an unspanned row: padded cells joined by the psql
vertical separator. -/
def contentLineL (ws : List Nat) (row : List String) : List Char :=
  joinSepL '|' (cellsL ws (row.map String.data))

/-- The psql horizontal separator line below the first row. -/
def sepLineL (ws : List Nat) : List Char :=
  joinSepL '+' (ws.map (fun w => List.replicate w '-'))

/-- The content line of row 0 when it carries a span of the given size at
column 0: the merged region is rendered once, then the remaining cells. -/
def spanLineL (ws : List Nat) (span0 : Nat) (row : List String) : List Char :=
  joinSepL '|' (padCellL (regionWidth ws span0) (row.getD 0 "").data ::
    cellsL (ws.drop span0) ((row.drop span0).map String.data))

/-- Modelled from the spec: the psql grid builder (papergrid, not part of
the sample): the first content line (merged when row 0 carries a span),
the separator of `-` and `+` below row 0, then the remaining content
lines, over a given dimension plan. -/
def renderLinesW (ws : List Nat) (tbl : List (List String)) (span0 : Nat) :
    List (List Char) :=
  (if 1 < span0 then spanLineL ws span0 (tbl.getD 0 [])
    else contentLineL ws (tbl.getD 0 [])) ::
    sepLineL ws :: (tbl.drop 1).map (contentLineL ws)

/-- The render lines of a table: the dimension plan is recomputed from the
current records and configuration, then the builder walks the rows. -/
def renderLinesL (tbl : List (List String)) (cols span0 : Nat) :
    List (List Char) :=
  renderLinesW (widths tbl cols span0) tbl span0

/-- The rendered table: lines joined by a newline, no trailing newline. -/
def renderPsql (tbl : List (List String)) (cols span0 : Nat) : String :=
  String.mk (joinSepL ('\n') (renderLinesL tbl cols span0))

/-- Render under a configuration: the row-0 span size is read from the
configuration's span mapping. -/
def renderOfCfg (cfg : Cfg) (tbl : List (List String)) (cols : Nat) :
    String :=
  renderPsql tbl cols ((cfg.spans (0, 0)).getD 1)

/-- The synthetic full-width row inserted by `Panel`. -/
def panelRow (text : String) (cols : Nat) : List String :=
  text :: List.replicate (cols - 1) ""

/-- Modelled from the spec: `Panel(text, idx)` inserts a synthetic
full-width row into the records at the given index. -/
def panelApply (text : String) (idx cols : Nat) (tbl : List (List String)) :
    List (List String) :=
  tbl.take idx ++ panelRow text cols :: tbl.drop idx

/-- The 4x4 records of the panel tests' `create_table::<3, 3>`: a numbered
header row and three numbered data rows. -/
def numberedTable : List (List String) :=
  [["N", "column 0", "column 1", "column 2"],
   ["0", "0-0", "0-1", "0-2"],
   ["1", "1-0", "1-1", "1-2"],
   ["2", "2-0", "2-1", "2-2"]]

/-- The horizontal segments of a top border line: a run of the horizontal
character per column, and at each interior boundary the intersection
character, except that the correct-spans normalization replaces it by the
horizontal character while the boundary is still strictly inside the row-0
span (`spanLeft` counts the span columns not yet passed). -/
def topSegsL (hc ic : Char) (correct : Bool) :
    List Nat → Nat → List Char
  | [], _ => []
  | [w], _ => List.replicate w hc
  | w :: m :: rest, spanLeft =>
      List.replicate w hc ++
        (if correct ∧ 2 ≤ spanLeft then hc else ic) ::
          topSegsL hc ic correct (m :: rest) (spanLeft - 1)

/-- Modelled from the spec: the top border line of a framed style (left
corner, per-column horizontals with intersections, right corner), with the
optional correct-spans normalization over a row-0 span. -/
def topBorderL (ws : List Nat) (lc hc ic rc : Char) (span0 : Nat)
    (correct : Bool) : List Char :=
  lc :: (topSegsL hc ic correct ws span0 ++ [rc])

/-- The whole state a render reads: the configuration, the records and the
column count. -/
structure TableState where
  cfg : Cfg
  tbl : List (List String)
  cols : Nat

/-- The row-0 span size a render resolves from a state. -/
def TableState.span0 (s : TableState) : Nat :=
  (s.cfg.spans (0, 0)).getD 1

/-- Modelled from the spec: the dimension estimator pass; it reads the
state and returns the dimension plan together with the state it read. -/
def dimensionPass (s : TableState) : List Nat × TableState :=
  (widths s.tbl s.cols s.span0, s)

/-- Modelled from the spec: the grid builder pass; it reads the state and
the dimension plan and returns the lines together with the state it
read. -/
def buildPass (ws : List Nat) (s : TableState) : List (List Char) × TableState :=
  (renderLinesW ws s.tbl s.span0, s)

/-- A full render call: estimator then builder, returning the rendered
string and the state after the call. -/
def renderCall (s : TableState) : String × TableState :=
  let d := dimensionPass s
  let b := buildPass d.1 d.2
  (String.mk (joinSepL ('\n') b.1), b.2)

/-- The span invariant: every registered span fits inside the column
count. -/
def spanInv (cfg : Cfg) (cols : Nat) : Prop :=
  ∀ p s, cfg.spans p = some s → p.2 + s ≤ cols

theorem reach_sideInv {T B L R : Bool} {x : Border T B L R} (h : Reach x) :
    sideInv x := by
  induction h with
  | new => exact ⟨nofun, nofun, nofun, nofun⟩
  | full t b l r tl tr bl br =>
      exact ⟨fun _ => rfl, fun _ => rfl, fun _ => rfl, fun _ => rfl⟩
  | filled c =>
      exact ⟨fun _ => rfl, fun _ => rfl, fun _ => rfl, fun _ => rfl⟩
  | set_top c _ ih =>
      exact ⟨fun _ => rfl, ih.2.1, ih.2.2.1, ih.2.2.2⟩
  | set_bottom c _ ih =>
      exact ⟨ih.1, fun _ => rfl, ih.2.2.1, ih.2.2.2⟩
  | set_left c _ ih =>
      exact ⟨ih.1, ih.2.1, fun _ => rfl, ih.2.2.2⟩
  | set_right c _ ih =>
      exact ⟨ih.1, ih.2.1, ih.2.2.1, fun _ => rfl⟩
  | set_corner_top_left c _ ih => exact ih
  | set_corner_top_right c _ ih => exact ih
  | set_corner_bottom_left c _ ih => exact ih
  | set_corner_bottom_right c _ ih => exact ih

theorem Cfg.ext_iff {c d : Cfg} :
    c = d ↔ c.borders = d.borders ∧ c.spans = d.spans ∧
      c.paddings = d.paddings ∧ c.alignments = d.alignments := by
  constructor
  · intro h
    subst h
    exact ⟨rfl, rfl, rfl, rfl⟩
  · intro h
    cases c
    cases d
    simp only at h
    simp [h.1, h.2.1, h.2.2.1, h.2.2.2]

theorem overwrite_nil {α : Type} (f : Pos → Option α) (g : Pos → Option α) :
    overwrite f [] g = f := by
  funext q
  simp [overwrite]

theorem overwrite_idem {α : Type} (f : Pos → Option α) (ps : List Pos)
    (g : Pos → Option α) :
    overwrite (overwrite f ps g) ps g = overwrite f ps g := by
  funext q
  by_cases h : q ∈ ps <;> simp [overwrite, h]

theorem overwrite_comm {α : Type} (f : Pos → Option α) (ps qs : List Pos)
    (g₁ g₂ : Pos → Option α) (hd : ∀ p ∈ ps, p ∉ qs) :
    overwrite (overwrite f qs g₂) ps g₁ =
      overwrite (overwrite f ps g₁) qs g₂ := by
  funext q
  by_cases h₁ : q ∈ ps
  · have h₂ : q ∉ qs := hd q h₁
    simp [overwrite, h₁, h₂]
  · by_cases h₂ : q ∈ qs <;> simp [overwrite, h₁, h₂]

theorem border_apply_char (b : GridBorder) (ps : List Pos) (c : Cfg) :
    (Mut.border b).apply ps c =
      ⟨overwrite c.borders ps (fun _ => some b), c.spans, c.paddings,
        c.alignments⟩ := by
  induction ps generalizing c with
  | nil =>
      cases c
      simp [Mut.apply, overwrite_nil]
  | cons p ps ih =>
      show (Mut.border b).apply ps (c.set_border p b) = _
      rw [ih]
      refine Cfg.ext_iff.mpr ⟨?_, rfl, rfl, rfl⟩
      funext q
      by_cases hps : q ∈ ps
      · simp [overwrite, hps]
      · by_cases hq : q = p <;> simp [overwrite, Cfg.set_border, hps, hq]

theorem span_apply_char (size countCols : Nat) (ps : List Pos) (c : Cfg) :
    (Mut.span size countCols).apply ps c =
      ⟨c.borders, overwrite c.spans ps (spanVal size countCols), c.paddings,
        c.alignments⟩ := by
  induction ps generalizing c with
  | nil =>
      cases c
      simp [Mut.apply, overwrite_nil]
  | cons p ps ih =>
      show (Mut.span size countCols).apply ps (c.set_span p size countCols) = _
      rw [ih]
      refine Cfg.ext_iff.mpr ⟨rfl, ?_, rfl, rfl⟩
      funext q
      by_cases hps : q ∈ ps
      · simp [overwrite, hps]
      · by_cases hq : q = p <;>
          simp [overwrite, Cfg.set_span, spanVal, hps, hq]

theorem pad_apply_char (pd : Padding) (ps : List Pos) (c : Cfg) :
    (Mut.pad pd).apply ps c =
      ⟨c.borders, c.spans, overwrite c.paddings ps (fun _ => some pd),
        c.alignments⟩ := by
  induction ps generalizing c with
  | nil =>
      cases c
      simp [Mut.apply, overwrite_nil]
  | cons p ps ih =>
      show (Mut.pad pd).apply ps (c.set_padding p pd) = _
      rw [ih]
      refine Cfg.ext_iff.mpr ⟨rfl, rfl, ?_, rfl⟩
      funext q
      by_cases hps : q ∈ ps
      · simp [overwrite, hps]
      · by_cases hq : q = p <;> simp [overwrite, Cfg.set_padding, hps, hq]

theorem align_apply_char (al : AlignH) (ps : List Pos) (c : Cfg) :
    (Mut.align al).apply ps c =
      ⟨c.borders, c.spans, c.paddings,
        overwrite c.alignments ps (fun _ => some al)⟩ := by
  induction ps generalizing c with
  | nil =>
      cases c
      simp [Mut.apply, overwrite_nil]
  | cons p ps ih =>
      show (Mut.align al).apply ps (c.set_alignment p al) = _
      rw [ih]
      refine Cfg.ext_iff.mpr ⟨rfl, rfl, rfl, ?_⟩
      funext q
      by_cases hps : q ∈ ps
      · simp [overwrite, hps]
      · by_cases hq : q = p <;> simp [overwrite, Cfg.set_alignment, hps, hq]

theorem mut_idem (m : Mut) (ps : List Pos) (c : Cfg) :
    m.apply ps (m.apply ps c) = m.apply ps c := by
  cases m <;>
    simp [border_apply_char, span_apply_char, pad_apply_char,
      align_apply_char, overwrite_idem]

theorem mut_comm (m₁ m₂ : Mut) (ps qs : List Pos) (c : Cfg)
    (hd : ∀ p ∈ ps, p ∉ qs) :
    m₁.apply ps (m₂.apply qs c) = m₂.apply qs (m₁.apply ps c) := by
  cases m₁ <;> cases m₂ <;>
    simp [border_apply_char, span_apply_char, pad_apply_char,
      align_apply_char] <;>
    exact overwrite_comm _ _ _ _ _ hd

theorem overwrite_mem {α : Type} (f : Pos → Option α) (ps : List Pos)
    (g : Pos → Option α) (p : Pos) (hp : p ∈ ps) :
    overwrite f ps g p = g p := by
  simp [overwrite, hp]

/-- C1: applying the span modifier with size `n` at an in-bounds position
and then applying it again with size `1` there removes any span registered
at that origin; when no span had ever been applied at that position the
configuration is exactly the one that never saw a span there, so rendering
is identical. -/
theorem span_set_then_unset_roundtrip (cfg : Cfg) (r c n rows cols : Nat)
    (hr : r < rows) (hc : c < cols) :
    ((Span.column 1).change_cell rows cols (Entity.Cell r c)
        ((Span.column n).change_cell rows cols (Entity.Cell r c) cfg)).spans
        (r, c) = none ∧
    (cfg.spans (r, c) = none →
      (Span.column 1).change_cell rows cols (Entity.Cell r c)
        ((Span.column n).change_cell rows cols (Entity.Cell r c) cfg) = cfg) := by
  have hiter : (Entity.Cell r c).iter rows cols = [(r, c)] := by
    simp [Entity.iter, hr, hc]
  have hstep : ∀ (k : Nat) (d : Cfg),
      (Span.column k).change_cell rows cols (Entity.Cell r c) d =
        d.set_span (r, c) k cols := by
    intro k d
    simp [Span.change_cell, hiter, Span.column]
  rw [hstep, hstep]
  constructor
  · simp [Cfg.set_span]
  · intro hnone
    refine Cfg.ext_iff.mpr ⟨rfl, ?_, rfl, rfl⟩
    funext q
    by_cases hq : q = (r, c) <;> simp [Cfg.set_span, hq, hnone]

/-- C1 witness: round trip at a concrete configuration and position. -/
theorem span_set_then_unset_roundtrip_witness :
    Cfg.empty.spans (0, 1) = none ∧
    ((Span.column 1).change_cell 3 3 (Entity.Cell 0 1)
        ((Span.column 2).change_cell 3 3 (Entity.Cell 0 1) Cfg.empty)).spans
        (0, 1) = none ∧
    (Span.column 1).change_cell 3 3 (Entity.Cell 0 1)
      ((Span.column 2).change_cell 3 3 (Entity.Cell 0 1) Cfg.empty) =
      Cfg.empty := by
  have h := span_set_then_unset_roundtrip Cfg.empty 0 1 2 3 3
    (by decide) (by decide)
  exact ⟨rfl, h.1, h.2 rfl⟩

theorem padCellL_length (w : Nat) (s : List Char) (h : s.length ≤ w) :
    (padCellL w s).length = w := by
  have hd : (w - s.length) / 2 ≤ w - s.length := Nat.div_le_self _ _
  simp only [padCellL, List.length_append, List.length_replicate]
  omega

theorem padCellL_chars (w : Nat) (s : List Char) (ch : Char)
    (h : ch ∈ padCellL w s) : ch ∈ s ∨ ch = ' ' := by
  simp only [padCellL, List.mem_append, List.mem_replicate] at h
  rcases h with (h | h) | h
  · exact Or.inr h.2
  · exact Or.inl h
  · exact Or.inr h.2

theorem joinSepL_length (sep : Char) (parts : List (List Char)) :
    (joinSepL sep parts).length =
      (parts.map List.length).sum + (parts.length - 1) := by
  induction parts with
  | nil => simp [joinSepL]
  | cons l rest ih =>
      cases rest with
      | nil => simp [joinSepL]
      | cons m rest2 =>
          simp only [joinSepL, List.length_append, List.length_cons, ih,
            List.map_cons, List.sum_cons, List.length_cons]
          omega

theorem joinSepL_chars (sep : Char) (parts : List (List Char)) (ch : Char)
    (h : ch ∈ joinSepL sep parts) : (∃ l ∈ parts, ch ∈ l) ∨ ch = sep := by
  induction parts with
  | nil => simp [joinSepL] at h
  | cons l rest ih =>
      cases rest with
      | nil =>
          simp only [joinSepL] at h
          exact Or.inl ⟨l, List.mem_cons_self l [], h⟩
      | cons m rest2 =>
          simp only [joinSepL, List.mem_append, List.mem_cons] at h
          rcases h with h | h | h
          · exact Or.inl ⟨l, List.mem_cons_self _ _, h⟩
          · exact Or.inr h
          · rcases ih h with ⟨l', hl', hch⟩ | h
            · exact Or.inl ⟨l', List.mem_cons_of_mem _ hl', hch⟩
            · exact Or.inr h

theorem joinSepL_ne_nil (sep : Char) (parts : List (List Char))
    (h1 : parts ≠ []) (h2 : ∀ l ∈ parts, l ≠ []) :
    joinSepL sep parts ≠ [] := by
  cases parts with
  | nil => exact absurd rfl h1
  | cons l rest =>
      cases rest with
      | nil => exact h2 l (List.mem_cons_self _ _)
      | cons m rest2 =>
          simp only [joinSepL, ne_eq, List.append_eq_nil]
          intro h
          exact absurd h.2 (List.cons_ne_nil _ _)

theorem joinSepL_getLast_ne (sep ch : Char) (parts : List (List Char))
    (h1 : parts ≠ []) (h2 : ∀ l ∈ parts, l ≠ [] ∧ ch ∉ l) :
    (joinSepL sep parts).getLast? ≠ some ch := by
  induction parts with
  | nil => exact absurd rfl h1
  | cons l rest ih =>
      cases rest with
      | nil =>
          have hl := h2 l (List.mem_cons_self _ _)
          simp only [joinSepL]
          rw [List.getLast?_eq_getLast l hl.1]
          intro h
          have hmem : l.getLast hl.1 ∈ l := List.getLast_mem hl.1
          rw [Option.some.injEq] at h
          rw [h] at hmem
          exact hl.2 hmem
      | cons m rest2 =>
          have hrest : ∀ l' ∈ m :: rest2, l' ≠ [] ∧ ch ∉ l' :=
            fun l' hl' => h2 l' (List.mem_cons_of_mem _ hl')
          have hne : joinSepL sep (m :: rest2) ≠ [] :=
            joinSepL_ne_nil sep _ (List.cons_ne_nil _ _)
              (fun l' hl' => (hrest l' hl').1)
          simp only [joinSepL]
          rw [List.getLast?_append]
          cases hj : joinSepL sep (m :: rest2) with
          | nil => exact absurd hj hne
          | cons x xs =>
              rw [List.getLast?_cons_cons]
              have := ih (List.cons_ne_nil _ _) hrest
              rw [hj] at this
              have hsome : (x :: xs).getLast? =
                  some ((x :: xs).getLast (List.cons_ne_nil _ _)) :=
                List.getLast?_eq_getLast _ _
              rw [hsome]
              simp only [Option.or_some, ne_eq, Option.some.injEq]
              intro hcontra
              rw [hsome] at this
              exact this (by rw [hcontra])

theorem cellsL_map_length (ws : List Nat) (row : List (List Char))
    (h : ∀ j, j < ws.length → (row.getD j []).length ≤ ws.getD j 0) :
    (cellsL ws row).map List.length = ws := by
  induction ws generalizing row with
  | nil => cases row <;> simp [cellsL]
  | cons w ws ih =>
      cases row with
      | nil =>
          have h0 : (List.length ([] : List Char)) ≤ w := Nat.zero_le _
          simp only [cellsL, List.map_cons]
          rw [padCellL_length w [] h0]
          rw [ih [] (fun j hj => by simp)]
      | cons s row =>
          have h0 : s.length ≤ w := by simpa using h 0 (Nat.succ_pos _)
          simp only [cellsL, List.map_cons]
          rw [padCellL_length w s h0]
          rw [ih row (fun j hj => by
            simpa using h (j + 1) (by simp only [List.length_cons]; omega))]

theorem cellsL_length (ws : List Nat) (row : List (List Char)) :
    (cellsL ws row).length = ws.length := by
  induction ws generalizing row with
  | nil => cases row <;> simp [cellsL]
  | cons w ws ih => cases row <;> simp [cellsL, ih]

theorem cellsL_chars (ws : List Nat) (row : List (List Char)) :
    ∀ l ∈ cellsL ws row, ∀ ch ∈ l, (∃ s ∈ row, ch ∈ s) ∨ ch = ' ' := by
  induction ws generalizing row with
  | nil => cases row <;> simp [cellsL]
  | cons w ws ih =>
      cases row with
      | nil =>
          intro l hl ch hch
          simp only [cellsL, List.mem_cons] at hl
          rcases hl with hl | hl
          · subst hl
            rcases padCellL_chars w [] ch hch with h | h
            · simp at h
            · exact Or.inr h
          · exact ih [] l hl ch hch
      | cons s row =>
          intro l hl ch hch
          simp only [cellsL, List.mem_cons] at hl
          rcases hl with hl | hl
          · subst hl
            rcases padCellL_chars w s ch hch with h | h
            · exact Or.inl ⟨s, List.mem_cons_self _ _, h⟩
            · exact Or.inr h
          · rcases ih row l hl ch hch with ⟨t, ht, hc⟩ | h
            · exact Or.inl ⟨t, List.mem_cons_of_mem _ ht, hc⟩
            · exact Or.inr h

theorem le_foldl_max_init (l : List Nat) (a : Nat) : a ≤ l.foldl max a := by
  induction l generalizing a with
  | nil => exact Nat.le_refl a
  | cons x l ih => exact le_trans (Nat.le_max_left a x) (ih (max a x))

theorem le_foldl_max_mem (l : List Nat) (a x : Nat) (h : x ∈ l) :
    x ≤ l.foldl max a := by
  induction l generalizing a with
  | nil => simp at h
  | cons y l ih =>
      rcases List.mem_cons.mp h with h | h
      · subst h
        exact le_trans (Nat.le_max_right a x) (le_foldl_max_init l _)
      · exact ih _ h

theorem getD_map_data (row : List String) (j : Nat) :
    (row.map String.data).getD j [] = (row.getD j "").data := by
  induction row generalizing j with
  | nil => simp
  | cons s row ih => cases j <;> simp [ih]

theorem getD_range_map {α : Type} (f : Nat → α) (cols j : Nat) (d : α)
    (h : j < cols) : ((List.range cols).map f).getD j d = f j := by
  rw [List.getD_eq_getElem?_getD, List.getElem?_map, List.getElem?_range h]
  rfl

theorem getD_drop {α : Type} (l : List α) (n i : Nat) (d : α) :
    (l.drop n).getD i d = l.getD (n + i) d := by
  rw [List.getD_eq_getElem?_getD, List.getD_eq_getElem?_getD,
    List.getElem?_drop]

theorem colWidthNat_ge (tbl : List (List String)) (span0 j i : Nat)
    (hi : i < tbl.length) (hskip : ¬(i = 0 ∧ 1 < span0 ∧ j < span0)) :
    (cellAt tbl i j).length + 2 ≤ colWidthNat tbl span0 j := by
  apply le_foldl_max_mem
  apply List.mem_map.mpr
  exact ⟨i, List.mem_range.mpr hi, if_neg hskip⟩

theorem baseWidths_length (tbl : List (List String)) (cols span0 : Nat) :
    (baseWidths tbl cols span0).length = cols := by
  simp [baseWidths]

theorem baseWidths_getD (tbl : List (List String)) (cols span0 j : Nat)
    (h : j < cols) :
    (baseWidths tbl cols span0).getD j 0 = colWidthNat tbl span0 j :=
  getD_range_map _ _ _ _ h

theorem fixWidths_length (ws : List Nat) (span0 need : Nat) :
    (fixWidths ws span0 need).length = ws.length := by
  unfold fixWidths
  split
  · rfl
  split
  · rfl
  · exact List.length_set _ _ _

theorem widths_length (tbl : List (List String)) (cols span0 : Nat) :
    (widths tbl cols span0).length = cols := by
  rw [widths, fixWidths_length, baseWidths_length]

theorem getD_set_self {α : Type} (l : List α) (i : Nat) (v d : α)
    (h : i < l.length) : (l.set i v).getD i d = v := by
  rw [List.getD_eq_getElem?_getD, List.getElem?_set_self h]
  rfl

theorem getD_set_ne {α : Type} (l : List α) (i j : Nat) (v d : α)
    (h : i ≠ j) : (l.set i v).getD j d = l.getD j d := by
  rw [List.getD_eq_getElem?_getD, List.getElem?_set_ne h,
    ← List.getD_eq_getElem?_getD]

theorem fixWidths_getD_ge (ws : List Nat) (span0 need j : Nat) :
    ws.getD j 0 ≤ (fixWidths ws span0 need).getD j 0 := by
  unfold fixWidths
  split
  · exact Nat.le_refl _
  split
  · exact Nat.le_refl _
  by_cases hlen : span0 - 1 < ws.length
  · by_cases hj : span0 - 1 = j
    · subst hj
      rw [getD_set_self _ _ _ _ hlen]
      omega
    · rw [getD_set_ne _ _ _ _ _ hj]
  · rw [List.set_eq_of_length_le (Nat.le_of_not_lt hlen)]

theorem take_set_lt {α : Type} (l : List α) (i k : Nat) (v : α)
    (h : i < k) : (l.set i v).take k = (l.take k).set i v := by
  induction l generalizing i k with
  | nil => simp
  | cons x l ih =>
      cases i with
      | zero =>
          cases k with
          | zero => omega
          | succ k => simp [List.set, List.take]
      | succ i =>
          cases k with
          | zero => omega
          | succ k =>
              simp only [List.set, List.take, List.cons.injEq, true_and]
              exact ih i k (by omega)

theorem sum_set_getD (L : List Nat) (n δ : Nat) (h : n < L.length) :
    (L.set n (L.getD n 0 + δ)).sum = L.sum + δ := by
  have hgetD : L.getD n 0 = L[n] := by
    rw [List.getD_eq_getElem?_getD, List.getElem?_eq_getElem h]
    rfl
  have hsplit := List.sum_take_add_sum_drop L n
  rw [List.drop_eq_getElem_cons h] at hsplit
  simp only [List.sum_cons] at hsplit
  rw [List.sum_set, if_pos h, hgetD]
  omega

theorem region_ge_need (ws : List Nat) (span0 need : Nat)
    (h1 : 1 < span0) (h2 : span0 ≤ ws.length) :
    need ≤ regionWidth (fixWidths ws span0 need) span0 := by
  unfold fixWidths
  rw [if_neg (by omega)]
  split
  · assumption
  rename_i hlt
  push_neg at hlt
  have hidx : span0 - 1 < span0 := by omega
  have hlen : span0 - 1 < ws.length := by omega
  unfold regionWidth
  rw [take_set_lt ws (span0 - 1) span0 _ hidx]
  have htake : (ws.take span0).getD (span0 - 1) 0 = ws.getD (span0 - 1) 0 := by
    rw [List.getD_eq_getElem?_getD, List.getElem?_take, if_pos hidx,
      ← List.getD_eq_getElem?_getD]
  have hlentake : span0 - 1 < (ws.take span0).length := by
    simp only [List.length_take]
    omega
  rw [← htake, sum_set_getD _ _ _ hlentake]
  unfold regionWidth at hlt
  omega

theorem fixWidths_drop (ws : List Nat) (span0 need k : Nat)
    (h : span0 ≤ k) (h1 : 1 < span0) :
    (fixWidths ws span0 need).drop k = ws.drop k := by
  unfold fixWidths
  split
  · rfl
  split
  · rfl
  rw [List.drop_set, if_pos (by omega)]

theorem contentLineL_length (ws : List Nat) (row : List String)
    (h : ∀ j, j < ws.length →
      ((row.map String.data).getD j []).length ≤ ws.getD j 0) :
    (contentLineL ws row).length = totalWidth ws := by
  rw [contentLineL, joinSepL_length, cellsL_map_length _ _ h, cellsL_length,
    totalWidth]

theorem sepLineL_length (ws : List Nat) :
    (sepLineL ws).length = totalWidth ws := by
  rw [sepLineL, joinSepL_length, List.map_map]
  have : (List.length ∘ fun w => List.replicate w '-') = id := by
    funext w
    simp
  rw [this, List.map_id, List.length_map, totalWidth]

theorem widths_rowOk (tbl : List (List String)) (cols span0 i : Nat)
    (hi : i < tbl.length) (hskip : i = 0 → ¬1 < span0) :
    ∀ j, j < (widths tbl cols span0).length →
      (((tbl.getD i []).map String.data).getD j []).length ≤
        (widths tbl cols span0).getD j 0 := by
  intro j hj
  rw [widths_length] at hj
  rw [getD_map_data]
  have h1 : ((tbl.getD i []).getD j "").data.length + 2 ≤
      colWidthNat tbl span0 j := by
    apply colWidthNat_ge tbl span0 j i hi
    intro ⟨h0, hsp, _⟩
    exact hskip h0 hsp
  calc ((tbl.getD i []).getD j "").data.length
      ≤ colWidthNat tbl span0 j := by omega
    _ = (baseWidths tbl cols span0).getD j 0 :=
        (baseWidths_getD tbl cols span0 j hj).symm
    _ ≤ (widths tbl cols span0).getD j 0 := fixWidths_getD_ge _ _ _ _

theorem spanLine_tail_ok (tbl : List (List String)) (cols span0 : Nat)
    (ht : 0 < tbl.length) :
    ∀ j, j < ((widths tbl cols span0).drop span0).length →
      ((((tbl.getD 0 []).drop span0).map String.data).getD j []).length ≤
        ((widths tbl cols span0).drop span0).getD j 0 := by
  intro j hj
  rw [List.length_drop, widths_length] at hj
  rw [getD_map_data, getD_drop, getD_drop]
  have hcol : span0 + j < cols := by omega
  have h1 : ((tbl.getD 0 []).getD (span0 + j) "").data.length + 2 ≤
      colWidthNat tbl span0 (span0 + j) := by
    apply colWidthNat_ge tbl span0 (span0 + j) 0 ht
    intro ⟨_, _, hlt⟩
    omega
  calc ((tbl.getD 0 []).getD (span0 + j) "").data.length
      ≤ colWidthNat tbl span0 (span0 + j) := by omega
    _ = (baseWidths tbl cols span0).getD (span0 + j) 0 :=
        (baseWidths_getD tbl cols span0 _ hcol).symm
    _ ≤ (widths tbl cols span0).getD (span0 + j) 0 := fixWidths_getD_ge _ _ _ _

theorem widths_region_ge (tbl : List (List String)) (cols span0 : Nat)
    (h1 : 1 < span0) (h2 : span0 ≤ cols) :
    (cellAt tbl 0 0).length + 2 ≤
      regionWidth (widths tbl cols span0) span0 := by
  rw [widths]
  exact region_ge_need _ _ _ h1 (by rw [baseWidths_length]; exact h2)

theorem spanLineL_length (tbl : List (List String)) (cols span0 : Nat)
    (h1 : 1 < span0) (h2 : span0 ≤ cols) (ht : 0 < tbl.length) :
    (spanLineL (widths tbl cols span0) span0 (tbl.getD 0 [])).length =
      totalWidth (widths tbl cols span0) := by
  have hws : (widths tbl cols span0).length = cols := widths_length _ _ _
  have hreg := widths_region_ge tbl cols span0 h1 h2
  have htext : ((tbl.getD 0 []).getD 0 "").data.length ≤
      regionWidth (widths tbl cols span0) span0 := by
    have : cellAt tbl 0 0 = ((tbl.getD 0 []).getD 0 "").data := rfl
    rw [this] at hreg
    omega
  rw [spanLineL, joinSepL_length]
  simp only [List.map_cons, List.sum_cons, List.length_cons]
  rw [padCellL_length _ _ htext,
    cellsL_map_length _ _ (spanLine_tail_ok tbl cols span0 ht), cellsL_length]
  have hsum := List.sum_take_add_sum_drop (widths tbl cols span0) span0
  simp only [regionWidth, totalWidth, List.length_drop, hws]
  omega

theorem renderLinesL_length (tbl : List (List String)) (cols span0 : Nat)
    (ht : 0 < tbl.length) (hs : span0 ≤ cols) :
    ∀ l ∈ renderLinesL tbl cols span0,
      l.length = totalWidth (widths tbl cols span0) := by
  intro l hl
  have hws : (widths tbl cols span0).length = cols := widths_length _ _ _
  simp only [renderLinesL, renderLinesW, List.mem_cons] at hl
  rcases hl with hl | hl | hl
  · subst hl
    split
    · exact spanLineL_length tbl cols span0 (by assumption) hs ht
    · exact contentLineL_length _ _
        (widths_rowOk tbl cols span0 0 ht (fun _ => by assumption))
  · subst hl
    exact sepLineL_length _
  · rcases List.mem_map.mp hl with ⟨row, hrow, heq⟩
    rcases List.getElem_of_mem hrow with ⟨k, hk, hgk⟩
    have hk' : 1 + k < tbl.length := by
      rw [List.length_drop] at hk
      omega
    have hrow' : tbl.getD (1 + k) [] = row := by
      rw [List.getD_eq_getElem?_getD, List.getElem?_eq_getElem hk']
      rw [← List.getElem_drop tbl (h := hk)] at *
      simpa using hgk
    subst heq
    rw [← hrow']
    exact contentLineL_length _ _
      (widths_rowOk tbl cols span0 (1 + k) hk' (fun h => by omega))

theorem mem_getD_data (row : List String) (j : Nat) (ch : Char)
    (h : ch ∈ (row.getD j "").data) : ∃ t ∈ row, ch ∈ t.data := by
  by_cases hj : j < row.length
  · refine ⟨row.getD j "", ?_, h⟩
    rw [List.getD_eq_getElem?_getD, List.getElem?_eq_getElem hj]
    exact List.getElem_mem _
  · rw [List.getD_eq_getElem?_getD, List.getElem?_eq_none (by omega)] at h
    simp at h

theorem mem_map_data (row : List String) (s : List Char) (ch : Char)
    (hs : s ∈ row.map String.data) (hch : ch ∈ s) :
    ∃ t ∈ row, ch ∈ t.data := by
  rcases List.mem_map.mp hs with ⟨t, ht, rfl⟩
  exact ⟨t, ht, hch⟩

theorem getD_mem_of_lt {α : Type} (l : List α) (i : Nat) (d : α)
    (h : i < l.length) : l.getD i d ∈ l := by
  rw [List.getD_eq_getElem?_getD, List.getElem?_eq_getElem h]
  exact List.getElem_mem _

theorem contentLineL_chars (ws : List Nat) (row : List String) (ch : Char)
    (h : ch ∈ contentLineL ws row) :
    (∃ t ∈ row, ch ∈ t.data) ∨ ch = ' ' ∨ ch = '|' := by
  rcases joinSepL_chars _ _ _ h with ⟨l, hl, hch⟩ | h
  · rcases cellsL_chars _ _ l hl ch hch with ⟨s, hs, hc⟩ | h
    · exact Or.inl (mem_map_data row s ch hs hc)
    · exact Or.inr (Or.inl h)
  · exact Or.inr (Or.inr h)

theorem sepLineL_chars (ws : List Nat) (ch : Char)
    (h : ch ∈ sepLineL ws) : ch = '-' ∨ ch = '+' := by
  rcases joinSepL_chars _ _ _ h with ⟨l, hl, hch⟩ | h
  · rcases List.mem_map.mp hl with ⟨w, _, rfl⟩
    exact Or.inl (List.mem_replicate.mp hch).2
  · exact Or.inr h

theorem spanLineL_chars (ws : List Nat) (span0 : Nat) (row : List String)
    (ch : Char) (h : ch ∈ spanLineL ws span0 row) :
    (∃ t ∈ row, ch ∈ t.data) ∨ ch = ' ' ∨ ch = '|' := by
  rcases joinSepL_chars _ _ _ h with ⟨l, hl, hch⟩ | h
  · rcases List.mem_cons.mp hl with hl | hl
    · subst hl
      rcases padCellL_chars _ _ _ hch with h | h
      · exact Or.inl (mem_getD_data row 0 ch h)
      · exact Or.inr (Or.inl h)
    · rcases cellsL_chars _ _ l hl ch hch with ⟨s, hs, hc⟩ | h
      · rcases List.mem_map.mp hs with ⟨t, ht, rfl⟩
        exact Or.inl ⟨t, List.mem_of_mem_drop ht, hc⟩
      · exact Or.inr (Or.inl h)
  · exact Or.inr (Or.inr h)

theorem renderLinesL_chars (tbl : List (List String)) (cols span0 : Nat) :
    ∀ l ∈ renderLinesL tbl cols span0, ∀ ch ∈ l,
      (∃ row ∈ tbl, ∃ t ∈ row, ch ∈ t.data) ∨
        ch = ' ' ∨ ch = '-' ∨ ch = '+' ∨ ch = '|' := by
  intro l hl ch hch
  have hrow : ∀ i, (∃ t ∈ tbl.getD i [], ch ∈ t.data) →
      (∃ row ∈ tbl, ∃ t ∈ row, ch ∈ t.data) := by
    intro i ⟨t, ht, hc⟩
    by_cases hi : i < tbl.length
    · exact ⟨tbl.getD i [], getD_mem_of_lt _ _ _ hi, t, ht, hc⟩
    · rw [List.getD_eq_getElem?_getD, List.getElem?_eq_none (by omega)] at ht
      simp at ht
  simp only [renderLinesL, renderLinesW, List.mem_cons] at hl
  rcases hl with hl | hl | hl
  · subst hl
    revert hch
    split <;> intro hch
    · rcases spanLineL_chars _ _ _ _ hch with h | h | h
      · exact Or.inl (hrow 0 h)
      · exact Or.inr (Or.inl h)
      · exact Or.inr (Or.inr (Or.inr (Or.inr h)))
    · rcases contentLineL_chars _ _ _ hch with h | h | h
      · exact Or.inl (hrow 0 h)
      · exact Or.inr (Or.inl h)
      · exact Or.inr (Or.inr (Or.inr (Or.inr h)))
  · subst hl
    rcases sepLineL_chars _ _ hch with h | h
    · exact Or.inr (Or.inr (Or.inl h))
    · exact Or.inr (Or.inr (Or.inr (Or.inl h)))
  · rcases List.mem_map.mp hl with ⟨row, hmem, heq⟩
    subst heq
    rcases contentLineL_chars _ _ _ hch with h | h | h
    · rcases h with ⟨t, ht, hc⟩
      exact Or.inl ⟨row, List.mem_of_mem_drop hmem, t, ht, hc⟩
    · exact Or.inr (Or.inl h)
    · exact Or.inr (Or.inr (Or.inr (Or.inr h)))

theorem totalWidth_pos (tbl : List (List String)) (cols span0 : Nat)
    (hc : 0 < cols) (ht : 0 < tbl.length) (hs : span0 ≤ cols) :
    0 < totalWidth (widths tbl cols span0) := by
  have hws : (widths tbl cols span0).length = cols := widths_length _ _ _
  by_cases h2 : 2 ≤ cols
  · unfold totalWidth
    omega
  · have hcols : cols = 1 := by omega
    subst hcols
    have hsp : ¬1 < span0 := by omega
    have h1 : (cellAt tbl 0 0).length + 2 ≤ colWidthNat tbl span0 0 :=
      colWidthNat_ge tbl span0 0 0 ht (fun ⟨_, hx, _⟩ => hsp hx)
    have hbase : (baseWidths tbl 1 span0).getD 0 0 = colWidthNat tbl span0 0 :=
      baseWidths_getD tbl 1 span0 0 (by omega)
    have hge := fixWidths_getD_ge (baseWidths tbl 1 span0) span0
      ((cellAt tbl 0 0).length + 2) 0
    rw [hbase] at hge
    have hgetD : (widths tbl 1 span0).getD 0 0 ≤ (widths tbl 1 span0).sum := by
      have : widths tbl 1 span0 = [(widths tbl 1 span0).getD 0 0] := by
        cases hw : widths tbl 1 span0 with
        | nil => rw [hw] at hws; simp at hws
        | cons a l =>
            cases hl : l with
            | nil => simp [List.getD]
            | cons b l2 =>
                rw [hw, hl] at hws
                simp at hws
      conv_rhs => rw [this]
      simp [List.sum_cons]
    have hge' : colWidthNat tbl span0 0 ≤ (widths tbl 1 span0).getD 0 0 := hge
    unfold totalWidth
    omega

/-- C2: a span size requested larger than the remaining columns is stored
clamped to exactly the remaining column count; the stored spans keep
fitting inside the table, and a subsequent render over the clamped shape
keeps every line at the table's total width (a total function of the
natural-number widths: no panic, no malformed column). -/
theorem span_clamp (cfg : Cfg) (r c size cols : Nat)
    (hc : c < cols) (hbig : cols - c < size) :
    (cfg.set_span (r, c) size cols).spans (r, c) = some (cols - c) ∧
    (spanInv cfg cols → spanInv (cfg.set_span (r, c) size cols) cols) ∧
    (∀ tbl : List (List String), 0 < tbl.length →
      ∀ l ∈ renderLinesL tbl cols (cols - c),
        l.length = totalWidth (widths tbl cols (cols - c))) := by
  have hsz : ¬size ≤ 1 := by omega
  have hmin : min size (cols - c) = cols - c :=
    Nat.min_eq_right (by omega)
  refine ⟨?_, ?_, ?_⟩
  · simp [Cfg.set_span, hsz, hmin]
  · intro hinv p s hsp
    simp only [Cfg.set_span] at hsp
    by_cases hp : p = (r, c)
    · rw [if_pos hp, if_neg hsz, hmin] at hsp
      injection hsp with h
      subst hp
      simp only
      omega
    · rw [if_neg hp] at hsp
      exact hinv p s hsp
  · intro tbl ht
    exact renderLinesL_length tbl cols (cols - c) ht (by omega)

/-- C2 witness: requesting size 5 at column 1 of a 3-column table stores
exactly the 2 remaining columns, and a concrete render line has the total
width. -/
theorem span_clamp_witness :
    (Cfg.empty.set_span (0, 1) 5 3).spans (0, 1) = some 2 ∧
    spanInv (Cfg.empty.set_span (0, 1) 5 3) 3 ∧
    (sepLineL (widths [["a"]] 3 2)).length = totalWidth (widths [["a"]] 3 2) := by
  have h := span_clamp Cfg.empty 0 1 5 3 (by decide) (by decide)
  refine ⟨h.1, h.2.1 (fun p s hs => nomatch hs), ?_⟩
  apply h.2.2 [["a"]] (by decide)
  simp [renderLinesL, renderLinesW]

/-- C5: applying a border modifier sets the border override at every
resolved position to exactly the new value; the overwrite is full, the
result does not depend on any previously stored override, so fields unset
in the new value are unset afterwards. -/
theorem border_full_overwrite (cfg : Cfg) (rows cols : Nat) (e : Entity)
    (b : GridBorder) (p : Pos) (hp : p ∈ e.iter rows cols) :
    (b.change rows cols e cfg).borders p = some b ∧
    (b.change rows cols e cfg).borders p =
      (b.change rows cols e Cfg.empty).borders p := by
  have hchg : ∀ d : Cfg, b.change rows cols e d =
      (Mut.border b).apply (e.iter rows cols) d := fun _ => rfl
  rw [hchg, hchg, border_apply_char, border_apply_char]
  exact ⟨by simp [overwrite, hp], by simp [overwrite, hp]⟩

/-- C5 witness: overwriting a previously fully-set override with the empty
border leaves exactly the empty border stored. -/
theorem border_full_overwrite_witness :
    (GridBorder.empty.change 1 1 (Entity.Cell 0 0)
        (Cfg.empty.set_border (0, 0)
          (GridBorder.full 'a' 'b' 'c' 'd' 'e' 'f' 'g' 'h'))).borders (0, 0) =
      some GridBorder.empty ∧
    (GridBorder.empty.change 1 1 (Entity.Cell 0 0)
        (Cfg.empty.set_border (0, 0)
          (GridBorder.full 'a' 'b' 'c' 'd' 'e' 'f' 'g' 'h'))).borders (0, 0) =
      (GridBorder.empty.change 1 1 (Entity.Cell 0 0) Cfg.empty).borders
        (0, 0) :=
  border_full_overwrite _ 1 1 (Entity.Cell 0 0) GridBorder.empty (0, 0)
    (by decide)

/-- C6: every configuration mutator (border, span, padding, alignment
setter) is idempotent over a resolved position set; two mutators over
disjoint position sets commute; over overlapping sets the last application
wins (shown for the border and the span setters at a shared position). -/
theorem mutators_algebra :
    (∀ (m : Mut) (ps : List Pos) (c : Cfg),
      m.apply ps (m.apply ps c) = m.apply ps c) ∧
    (∀ (m₁ m₂ : Mut) (ps qs : List Pos) (c : Cfg),
      (∀ p ∈ ps, p ∉ qs) →
      m₁.apply ps (m₂.apply qs c) = m₂.apply qs (m₁.apply ps c)) ∧
    (∀ (b₁ b₂ : GridBorder) (ps qs : List Pos) (c : Cfg) (p : Pos),
      p ∈ qs →
      ((Mut.border b₂).apply qs ((Mut.border b₁).apply ps c)).borders p =
        some b₂) ∧
    (∀ (s₁ c₁ s₂ c₂ : Nat) (ps qs : List Pos) (c : Cfg) (p : Pos),
      p ∈ qs →
      ((Mut.span s₂ c₂).apply qs ((Mut.span s₁ c₁).apply ps c)).spans p =
        spanVal s₂ c₂ p) := by
  refine ⟨mut_idem, mut_comm, ?_, ?_⟩
  · intro b₁ b₂ ps qs c p hp
    rw [border_apply_char, border_apply_char]
    simp [overwrite, hp]
  · intro s₁ c₁ s₂ c₂ ps qs c p hp
    rw [span_apply_char, span_apply_char]
    simp [overwrite, hp]

/-- C6 witness: idempotence, disjoint commutation and last-write-wins at
concrete mutators, position sets and configurations. -/
theorem mutators_algebra_witness :
    ((Mut.border GridBorder.empty).apply [(0, 0)]
        ((Mut.border GridBorder.empty).apply [(0, 0)] Cfg.empty) =
      (Mut.border GridBorder.empty).apply [(0, 0)] Cfg.empty) ∧
    ((Mut.pad ⟨1, 1, 1, 1⟩).apply [(0, 0)]
        ((Mut.span 2 3).apply [(1, 1)] Cfg.empty) =
      (Mut.span 2 3).apply [(1, 1)]
        ((Mut.pad ⟨1, 1, 1, 1⟩).apply [(0, 0)] Cfg.empty)) ∧
    (((Mut.border (GridBorder.full 'a' 'b' 'c' 'd' 'e' 'f' 'g' 'h')).apply
        [(0, 0)]
        ((Mut.border GridBorder.empty).apply [(0, 0)] Cfg.empty)).borders
        (0, 0) = some (GridBorder.full 'a' 'b' 'c' 'd' 'e' 'f' 'g' 'h')) ∧
    (((Mut.span 3 4).apply [(0, 1)]
        ((Mut.span 2 4).apply [(0, 1)] Cfg.empty)).spans (0, 1) =
      spanVal 3 4 (0, 1)) := by
  have h := mutators_algebra
  exact ⟨h.1 _ _ _, h.2.1 _ _ _ _ _ (by decide),
    h.2.2.1 _ _ _ _ _ _ (by decide), h.2.2.2 _ _ _ _ _ _ _ _ (by decide)⟩

/-- C9 counterexample: the border reached by `new().set_top('x').set_left('y')`
has both relevant markers `On`, yet its top-left corner field is unset, so
`get_corner_top_left` hits the `unreachable!()` arm of `get_char` (modelled
by the `none` result): the claim that every corner accessor is safe on
reachable values is false. -/
theorem corner_unreachable_hit :
    Reach ((Border.new.set_top 'x').set_left 'y') ∧
    ((Border.new.set_top 'x').set_left 'y').inner.left_top_corner = none ∧
    ((Border.new.set_top 'x').set_left 'y').get_corner_top_left = none :=
  ⟨Reach.set_left 'y' (Reach.set_top 'x' Reach.new), rfl, rfl⟩

/-- C9 (amended): on every reachable border value, a side phantom marker
being `On` implies the corresponding side field is `Some`, so the four side
accessors return the stored character and never hit the unreachable arm of
`get_char`; a corner accessor returns the stored character only when the
corner field itself has been set, which the phantom markers do not
guarantee. -/
theorem typestate_side_accessors_safe :
    (∀ (B L R : Bool) (x : Border true B L R), Reach x →
      ∃ c, x.inner.top = some c ∧ x.get_top = some c) ∧
    (∀ (T L R : Bool) (x : Border T true L R), Reach x →
      ∃ c, x.inner.bottom = some c ∧ x.get_bottom = some c) ∧
    (∀ (T B R : Bool) (x : Border T B true R), Reach x →
      ∃ c, x.inner.left = some c ∧ x.get_left = some c) ∧
    (∀ (T B L : Bool) (x : Border T B L true), Reach x →
      ∃ c, x.inner.right = some c ∧ x.get_right = some c) ∧
    (∀ (B R : Bool) (x : Border true B true R),
      x.inner.left_top_corner.isSome →
      ∃ c, x.inner.left_top_corner = some c ∧
        x.get_corner_top_left = some c) := by
  refine ⟨?_, ?_, ?_, ?_, ?_⟩
  · intro B L R x hx
    rcases Option.isSome_iff_exists.mp ((reach_sideInv hx).1 rfl) with ⟨c, hc⟩
    exact ⟨c, hc, by rw [Border.get_top, hc]; rfl⟩
  · intro T L R x hx
    rcases Option.isSome_iff_exists.mp
      ((reach_sideInv hx).2.1 rfl) with ⟨c, hc⟩
    exact ⟨c, hc, by rw [Border.get_bottom, hc]; rfl⟩
  · intro T B R x hx
    rcases Option.isSome_iff_exists.mp
      ((reach_sideInv hx).2.2.1 rfl) with ⟨c, hc⟩
    exact ⟨c, hc, by rw [Border.get_left, hc]; rfl⟩
  · intro T B L x hx
    rcases Option.isSome_iff_exists.mp
      ((reach_sideInv hx).2.2.2 rfl) with ⟨c, hc⟩
    exact ⟨c, hc, by rw [Border.get_right, hc]; rfl⟩
  · intro B R x hx
    rcases Option.isSome_iff_exists.mp hx with ⟨c, hc⟩
    exact ⟨c, hc, by rw [Border.get_corner_top_left, hc]; rfl⟩

/-- C9 witness: side accessor safety at a concrete reachable border, and a
corner accessor at a border whose corner was actually set. -/
theorem typestate_side_accessors_safe_witness :
    (∃ c, (Border.new.set_top 'x').inner.top = some c ∧
      (Border.new.set_top 'x').get_top = some c) ∧
    (∃ c, (Border.filled 'z').inner.left_top_corner = some c ∧
      (Border.filled 'z').get_corner_top_left = some c) :=
  ⟨typestate_side_accessors_safe.1 _ _ _ (Border.new.set_top 'x')
      (Reach.set_top 'x' Reach.new),
    typestate_side_accessors_safe.2.2.2.2 _ _ (Border.filled 'z') rfl⟩

/-- C10: each side or corner setter of `Border` writes only its own field:
the written field holds the new character and the seven other border
fields are exactly those of the input. -/
theorem border_setters_frame :
    (∀ (T B L R : Bool) (x : Border T B L R) (c : Char),
      ((x.set_top c).inner.top = some c ∧
        (x.set_top c).inner.bottom = x.inner.bottom ∧
        (x.set_top c).inner.left = x.inner.left ∧
        (x.set_top c).inner.right = x.inner.right ∧
        (x.set_top c).inner.left_top_corner = x.inner.left_top_corner ∧
        (x.set_top c).inner.right_top_corner = x.inner.right_top_corner ∧
        (x.set_top c).inner.left_bottom_corner = x.inner.left_bottom_corner ∧
        (x.set_top c).inner.right_bottom_corner =
          x.inner.right_bottom_corner) ∧
      ((x.set_bottom c).inner.bottom = some c ∧
        (x.set_bottom c).inner.top = x.inner.top ∧
        (x.set_bottom c).inner.left = x.inner.left ∧
        (x.set_bottom c).inner.right = x.inner.right ∧
        (x.set_bottom c).inner.left_top_corner = x.inner.left_top_corner ∧
        (x.set_bottom c).inner.right_top_corner = x.inner.right_top_corner ∧
        (x.set_bottom c).inner.left_bottom_corner =
          x.inner.left_bottom_corner ∧
        (x.set_bottom c).inner.right_bottom_corner =
          x.inner.right_bottom_corner) ∧
      ((x.set_left c).inner.left = some c ∧
        (x.set_left c).inner.top = x.inner.top ∧
        (x.set_left c).inner.bottom = x.inner.bottom ∧
        (x.set_left c).inner.right = x.inner.right ∧
        (x.set_left c).inner.left_top_corner = x.inner.left_top_corner ∧
        (x.set_left c).inner.right_top_corner = x.inner.right_top_corner ∧
        (x.set_left c).inner.left_bottom_corner = x.inner.left_bottom_corner ∧
        (x.set_left c).inner.right_bottom_corner =
          x.inner.right_bottom_corner) ∧
      ((x.set_right c).inner.right = some c ∧
        (x.set_right c).inner.top = x.inner.top ∧
        (x.set_right c).inner.bottom = x.inner.bottom ∧
        (x.set_right c).inner.left = x.inner.left ∧
        (x.set_right c).inner.left_top_corner = x.inner.left_top_corner ∧
        (x.set_right c).inner.right_top_corner = x.inner.right_top_corner ∧
        (x.set_right c).inner.left_bottom_corner =
          x.inner.left_bottom_corner ∧
        (x.set_right c).inner.right_bottom_corner =
          x.inner.right_bottom_corner)) ∧
    (∀ (B R : Bool) (x : Border true B true R) (c : Char),
      (x.set_corner_top_left c).inner.left_top_corner = some c ∧
      (x.set_corner_top_left c).inner.top = x.inner.top ∧
      (x.set_corner_top_left c).inner.bottom = x.inner.bottom ∧
      (x.set_corner_top_left c).inner.left = x.inner.left ∧
      (x.set_corner_top_left c).inner.right = x.inner.right ∧
      (x.set_corner_top_left c).inner.right_top_corner =
        x.inner.right_top_corner ∧
      (x.set_corner_top_left c).inner.left_bottom_corner =
        x.inner.left_bottom_corner ∧
      (x.set_corner_top_left c).inner.right_bottom_corner =
        x.inner.right_bottom_corner) ∧
    (∀ (B L : Bool) (x : Border true B L true) (c : Char),
      (x.set_corner_top_right c).inner.right_top_corner = some c ∧
      (x.set_corner_top_right c).inner.top = x.inner.top ∧
      (x.set_corner_top_right c).inner.bottom = x.inner.bottom ∧
      (x.set_corner_top_right c).inner.left = x.inner.left ∧
      (x.set_corner_top_right c).inner.right = x.inner.right ∧
      (x.set_corner_top_right c).inner.left_top_corner =
        x.inner.left_top_corner ∧
      (x.set_corner_top_right c).inner.left_bottom_corner =
        x.inner.left_bottom_corner ∧
      (x.set_corner_top_right c).inner.right_bottom_corner =
        x.inner.right_bottom_corner) ∧
    (∀ (T R : Bool) (x : Border T true true R) (c : Char),
      (x.set_corner_bottom_left c).inner.left_bottom_corner = some c ∧
      (x.set_corner_bottom_left c).inner.top = x.inner.top ∧
      (x.set_corner_bottom_left c).inner.bottom = x.inner.bottom ∧
      (x.set_corner_bottom_left c).inner.left = x.inner.left ∧
      (x.set_corner_bottom_left c).inner.right = x.inner.right ∧
      (x.set_corner_bottom_left c).inner.left_top_corner =
        x.inner.left_top_corner ∧
      (x.set_corner_bottom_left c).inner.right_top_corner =
        x.inner.right_top_corner ∧
      (x.set_corner_bottom_left c).inner.right_bottom_corner =
        x.inner.right_bottom_corner) ∧
    (∀ (T L : Bool) (x : Border T true L true) (c : Char),
      (x.set_corner_bottom_right c).inner.right_bottom_corner = some c ∧
      (x.set_corner_bottom_right c).inner.top = x.inner.top ∧
      (x.set_corner_bottom_right c).inner.bottom = x.inner.bottom ∧
      (x.set_corner_bottom_right c).inner.left = x.inner.left ∧
      (x.set_corner_bottom_right c).inner.right = x.inner.right ∧
      (x.set_corner_bottom_right c).inner.left_top_corner =
        x.inner.left_top_corner ∧
      (x.set_corner_bottom_right c).inner.right_top_corner =
        x.inner.right_top_corner ∧
      (x.set_corner_bottom_right c).inner.left_bottom_corner =
        x.inner.left_bottom_corner) := by
  refine ⟨?_, ?_, ?_, ?_, ?_⟩ <;> intros
  all_goals repeat' apply And.intro
  all_goals rfl

/-- C3: on the 3x3 numbered table, a `Panel` at row 0 inserts the synthetic
full-width row at index 0, the span modifier registers a span over all 4
columns at its origin, and the psql render is exactly: the panel text
centered by padding over the merged first line, a separator line of `-`
and `+`, then the original header and data rows with their centering
unchanged. -/
theorem panel_psql_render :
    panelApply "Linux Distributions" 0 4 numberedTable =
      panelRow "Linux Distributions" 4 :: numberedTable ∧
    ((Span.column 4).change_cell 5 4 (Entity.Cell 0 0) Cfg.empty).spans
      (0, 0) = some 4 ∧
    renderOfCfg ((Span.column 4).change_cell 5 4 (Entity.Cell 0 0) Cfg.empty)
      (panelApply "Linux Distributions" 0 4 numberedTable) 4 =
      "        Linux Distributions         \n---+----------+----------+----------\n N | column 0 | column 1 | column 2 \n 0 |   0-0    |   0-1    |   0-2    \n 1 |   1-0    |   1-1    |   1-2    \n 2 |   2-0    |   2-1    |   2-2    " := by
  refine ⟨rfl, by decide, ?_⟩
  set_option maxRecDepth 10000 in decide

/-- C4: over a row-0 span of both columns of a two-column table, the
correct-spans normalization rewrites the interior top-row intersection to
the plain horizontal character (for any column widths), whereas without the
normalization the top border keeps the dangling intersection above the
merged region; at the widths of the panel test this is exactly the
difference between the two rendered top borders. -/
theorem correct_spans_top_border : ∀ w₁ w₂ : Nat,
    topBorderL [w₁, w₂] '┌' '─' '┬' '┐' 2 true =
      '┌' :: (List.replicate (w₁ + 1 + w₂) '─' ++ ['┐']) ∧
    topBorderL [w₁, w₂] '┌' '─' '┬' '┐' 2 false =
      '┌' :: (List.replicate w₁ '─' ++
        '┬' :: (List.replicate w₂ '─' ++ ['┐'])) ∧
    String.mk (topBorderL [5, 5] '┌' '─' '┬' '┐' 2 true) = "┌───────────┐" ∧
    String.mk (topBorderL [5, 5] '┌' '─' '┬' '┐' 2 false) = "┌─────┬─────┐" := by
  intro w₁ w₂
  have hrep : List.replicate (w₁ + 1 + w₂) '─' =
      List.replicate w₁ '─' ++ '─' :: List.replicate w₂ '─' := by
    rw [Nat.add_assoc, List.replicate_add, Nat.add_comm 1 w₂,
      List.replicate_succ]
  refine ⟨?_, ?_, by decide, by decide⟩
  · simp [topBorderL, topSegsL, hrep]
  · simp [topBorderL, topSegsL]

/-- C7: a render call is deterministic and re-entrant: it returns the state
it read unchanged, a second call on the returned state yields a
byte-identical string, and the string is the one the pure renderer assigns
to the configuration and the records. -/
theorem render_reentrant : ∀ s : TableState,
    (renderCall s).2 = s ∧
    (renderCall ((renderCall s).2)).1 = (renderCall s).1 ∧
    (renderCall s).1 = renderOfCfg s.cfg s.tbl s.cols :=
  fun _ => ⟨rfl, rfl, rfl⟩

/-- C8: for every table with at least one row and one column (single-line
cells, any valid row-0 span), the render is the newline-join of the
builder's lines, there is at least one line, every line has the same
length, equal to the table's total width, no line contains a newline, and
the output does not end in a newline. -/
theorem render_output_shape (tbl : List (List String)) (cols span0 : Nat)
    (hc : 0 < cols) (ht : 0 < tbl.length) (hs : span0 ≤ cols)
    (hnl : ∀ row ∈ tbl, ∀ t ∈ row, ('\n') ∉ t.data) :
    (renderPsql tbl cols span0).data =
      joinSepL ('\n') (renderLinesL tbl cols span0) ∧
    renderLinesL tbl cols span0 ≠ [] ∧
    (∀ l ∈ renderLinesL tbl cols span0,
      l.length = totalWidth (widths tbl cols span0)) ∧
    (∀ l ∈ renderLinesL tbl cols span0, ('\n') ∉ l) ∧
    (renderPsql tbl cols span0).data.getLast? ≠ some '\n' := by
  have hlen := renderLinesL_length tbl cols span0 ht hs
  have hchars : ∀ l ∈ renderLinesL tbl cols span0, ('\n') ∉ l := by
    intro l hl hch
    rcases renderLinesL_chars tbl cols span0 l hl _ hch with
      ⟨row, hrow, t, ht', hc'⟩ | h | h | h | h
    · exact hnl row hrow t ht' hc'
    all_goals exact absurd h (by decide)
  have hpos := totalWidth_pos tbl cols span0 hc ht hs
  have hne : ∀ l ∈ renderLinesL tbl cols span0, l ≠ [] := by
    intro l hl hemp
    rw [hemp] at hl
    have := hlen [] hl
    simp at this
    omega
  refine ⟨rfl, ?_, hlen, hchars, ?_⟩
  · simp [renderLinesL, renderLinesW]
  · show (joinSepL ('\n') (renderLinesL tbl cols span0)).getLast? ≠ some '\n'
    exact joinSepL_getLast_ne _ _ _
      (by simp [renderLinesL, renderLinesW])
      (fun l hl => ⟨hne l hl, hchars l hl⟩)

/-- C8 witness: shape facts at a concrete one-cell table. -/
theorem render_output_shape_witness :
    (renderPsql [["a"]] 1 1).data.getLast? ≠ some '\n' ∧
    (sepLineL (widths [["a"]] 1 1)).length = totalWidth (widths [["a"]] 1 1) := by
  have h := render_output_shape [["a"]] 1 1 (by decide) (by decide)
    (by decide) (by decide)
  exact ⟨h.2.2.2.2, h.2.2.1 _ (by simp [renderLinesL, renderLinesW])⟩

end Tabled
